import Mathlib

/-!
Shallow embedding of the icebox symbol-resolution code:
  * `src/fdp_exec/sym/pdb.cpp`   — PDB symbol index, address lookup, RSDS scanner
  * `src/icebox/icebox/sym/dwarf.cpp` — DWARF struct resolver

Machine integers are modelled as `Nat` with explicit reduction modulo `2^64`
where the C++ computes in `uint64_t`.  Fallible operations return `Option`
or a dedicated result inductive.  Undefined behaviour of the C++ (an
iterator decremented past `begin()`, a read past the end of a buffer) is
surfaced as a dedicated constructor, since no defined result exists there.
-/

/-- `uint64_t` modulus. -/
def U64 : Nat := 2 ^ 64

/-- `uint64_t` addition. -/
def add64 (a b : Nat) : Nat := (a + b) % U64

/-- `uint64_t` subtraction `a - b`. -/
def sub64 (a b : Nat) : Nat := (a % U64 + (U64 - b % U64)) % U64

/-- `BASE_ADDRESS` constant from pdb.cpp (`0x80000000`). -/
def BASE_ADDRESS : Nat := 0x80000000

/-- `span_t`: runtime range at which a module is mapped. -/
structure Span where
  addr : Nat
  size : Nat
deriving DecidableEq, Repr

/-- A backend global-variable record (`pdb::PDBGlobalVariable`):
only the fields the indexed code reads (name and static address). -/
structure GlobalVar where
  name : String
  address : Nat
deriving DecidableEq, Repr

/-- `get_offset` from pdb.cpp: `span.addr + var.address - BASE_ADDRESS`
in `uint64_t` arithmetic. -/
def get_offset (span : Span) (v : GlobalVar) : Nat :=
  sub64 (add64 span.addr v.address) BASE_ADDRESS

/-- `symbols_.emplace(name, var)`: `std::unordered_map::emplace` inserts only
when the key is absent, keeping the first-inserted record on duplicates.
The table is modelled as an association list in insertion order. -/
def emplaceName (t : List (String × GlobalVar)) (v : GlobalVar) :
    List (String × GlobalVar) :=
  if t.any (fun e => e.1 == v.name) then t else t ++ [(v.name, v)]

/-- `symbols_by_offset.emplace(offset, var)`: `std::map::emplace` keeps the
table sorted by key and inserts only when the key is absent. -/
def insertByOffset : List (Nat × GlobalVar) → Nat → GlobalVar → List (Nat × GlobalVar)
  | [], k, v => [(k, v)]
  | e :: rest, k, v =>
    if k < e.1 then (k, v) :: e :: rest
    else if k = e.1 then e :: rest
    else e :: insertByOffset rest k v

/-- The name-keyed table built by `Pdb::setup` over the backend's
global-variable collection. -/
def buildSymbols (g : List GlobalVar) : List (String × GlobalVar) :=
  g.foldl emplaceName []

/-- The address-keyed table built by `Pdb::setup`. -/
def buildSymbolsByOffset (span : Span) (g : List GlobalVar) : List (Nat × GlobalVar) :=
  g.foldl (fun t v => insertByOffset t (get_offset span v) v) []

/-- `Pdb::symbol(const std::string&)`: exact name lookup, returning the
runtime offset of the stored record. -/
def symbol_by_name (span : Span) (t : List (String × GlobalVar)) (s : String) :
    Option Nat :=
  (t.find? (fun e => e.1 == s)).map (fun e => get_offset span e.2)

/-- Outcome of `Pdb::symbol(uint64_t)`.  `iterUB` marks the path where the
C++ decrements the `begin()` iterator of `symbols_by_offset`, which is
undefined behaviour. -/
inductive AddrLookup where
  | found : String → Nat → AddrLookup
  | notFound : AddrLookup
  | iterUB : AddrLookup
deriving DecidableEq, Repr

/-- Walk of the ordered table realising `lower_bound` plus the tie-break of
`Pdb::symbol(uint64_t)`: `prev` is the entry just before the cursor, so that
when the first key `≥ addr` is met, `--it` is `prev`; when the walk falls off
the end, `prev` is `rbegin` (the greatest entry). -/
def symbol_addr_walk (span : Span) (addr : Nat) :
    Option (Nat × GlobalVar) → List (Nat × GlobalVar) → AddrLookup
  | none, [] => .notFound
  | some p, [] => .found p.2.name (sub64 addr (get_offset span p.2))
  | prev, e :: rest =>
    if e.1 < addr then symbol_addr_walk span addr (some e) rest
    else if e.1 = addr then .found e.2.name (sub64 addr (get_offset span e.2))
    else
      match prev with
      | none => .iterUB
      | some p => .found p.2.name (sub64 addr (get_offset span p.2))

/-- `Pdb::symbol(uint64_t addr)`. -/
def symbol_by_addr (span : Span) (tbl : List (Nat × GlobalVar)) (addr : Nat) :
    AddrLookup :=
  symbol_addr_walk span addr none tbl

/-- Prefix test on character lists (used to model `std::string::find`). -/
def listStartsWith : List Char → List Char → Bool
  | [], _ => true
  | _ :: _, [] => false
  | p :: ps, h :: hs => p == h && listStartsWith ps hs

/-- `hay.find(pat) != npos`: `pat` occurs as a contiguous substring of
`hay` at some position. -/
def containsSubstr (hay pat : String) : Bool :=
  (List.range (hay.toList.length + 1)).any
    (fun i => listStartsWith pat.toList (hay.toList.drop i))

/-- `Pdb::symbols_that_contains(s)`: iterate the name table, keep every
symbol whose name contains `s`, map it to its runtime offset; an empty
result set becomes `nullopt`. -/
def symbols_that_contains (span : Span) (t : List (String × GlobalVar))
    (s : String) : Option (List (String × Nat)) :=
  let found := t.filterMap
    (fun e => if containsSubstr e.1 s then some (e.1, get_offset span e.2) else none)
  if found.isEmpty then none else some found

/-- The `Pdb` module object: the members written by the constructor and
`Pdb::setup` that the query methods read. -/
structure PdbMod where
  span_ : Span
  symbols_ : List (String × GlobalVar)
  symbols_by_offset : List (Nat × GlobalVar)

/-- `sym::make_pdb` + `Pdb::setup`: store the caller's span and build both
tables from one pass over the backend's global-variable collection. -/
def make_pdb (span : Span) (globals : List GlobalVar) : PdbMod :=
  ⟨span, buildSymbols globals, buildSymbolsByOffset span globals⟩

/-- `Pdb::span()` returns the stored `span_`. -/
def PdbMod.span (p : PdbMod) : Span := p.span_

/-! ### RSDS signature scanner (`read_pdb` in pdb.cpp) -/

/-- The `rsds_magic` marker bytes `'R','S','D','S'`. -/
def rsds_magic : List Nat := [82, 83, 68, 83]

/-- Does `pat` occur in `buf` starting exactly at index `i` (entirely in
bounds)? -/
def matchesAt (buf pat : List Nat) (i : Nat) : Bool :=
  (buf.drop i).take pat.length == pat

/-- `search(&src[0], &src[src_size], rsds_pattern)` where `src = buf + start`:
index of the first full occurrence of `pat` at or after `start`. -/
def findPatFrom (buf pat : List Nat) (start : Nat) : Option Nat :=
  (List.range buf.length).find? (fun i => decide (start ≤ i) && matchesAt buf pat i)

/-- Result of the modelled `memchr`: `oobRead` marks the scan running past
the end of the buffer without having found the byte, which in the C++ is a
read of unowned memory (undefined behaviour). -/
inductive MemchrRes where
  | foundAt : Nat → MemchrRes
  | noMatch : MemchrRes
  | oobRead : MemchrRes
deriving DecidableEq, Repr

/-- `memchr(buf + i, 0x00, n)`: sequential scan that stops at the first zero
byte; a step beyond the buffer is an out-of-bounds read. -/
def memchrScan (buf : List Nat) : Nat → Nat → MemchrRes
  | _, 0 => .noMatch
  | i, Nat.succ n =>
    match buf[i]? with
    | none => .oobRead
    | some b => if b = 0 then .foundAt i else memchrScan buf (i + 1) n

/-- `std::isprint` over the C locale: the ASCII printable range. -/
def isPrintByte (b : Nat) : Bool := 32 ≤ b && b ≤ 126

/-- `read_pdb_name(ptr, end)`: bytes of `buf` in `[s, e)`, accepted only
when every byte is printable. -/
def read_pdb_name (buf : List Nat) (s e : Nat) : Option (List Nat) :=
  let bytes := (buf.drop s).take (e - s)
  if bytes.all isPrintByte then some bytes else none

/-- `read_le16`. -/
def read_le16 (b0 b1 : Nat) : Nat := b0 + 256 * b1

/-- `read_le32`. -/
def read_le32 (b0 b1 b2 b3 : Nat) : Nat := b0 + 256 * (b1 + 256 * (b2 + 256 * b3))

/-- `write_be32`: the value as 4 big-endian bytes. -/
def write_be32 (v : Nat) : List Nat :=
  [v / 2 ^ 24 % 256, v / 2 ^ 16 % 256, v / 2 ^ 8 % 256, v % 256]

/-- `write_be16`: the value as 2 big-endian bytes. -/
def write_be16 (v : Nat) : List Nat := [v / 2 ^ 8 % 256, v % 256]

/-- Byte of `buf` at index `i` (callers stay in bounds). -/
def byteAt (buf : List Nat) (i : Nat) : Nat := buf.getD i 0

/-- The GUID re-encoding of `read_pdb`: fields of widths 4, 2, 2 read
little-endian and written big-endian, last 8 bytes copied verbatim. -/
def reencode_guid (g : List Nat) : List Nat :=
  write_be32 (read_le32 (byteAt g 0) (byteAt g 1) (byteAt g 2) (byteAt g 3)) ++
  write_be16 (read_le16 (byteAt g 4) (byteAt g 5)) ++
  write_be16 (read_le16 (byteAt g 6) (byteAt g 7)) ++
  [byteAt g 8, byteAt g 9, byteAt g 10, byteAt g 11,
   byteAt g 12, byteAt g 13, byteAt g 14, byteAt g 15]

/-- One uppercase hexadecimal digit (`hex::chars_upper`). -/
def hexDigitUpper (n : Nat) : Char :=
  if n < 10 then Char.ofNat (48 + n) else Char.ofNat (55 + n)

/-- `hex::convert` with uppercase digits: two hex characters per byte. -/
def bytesToHexUpper (bs : List Nat) : List Char :=
  (bs.map (fun b => [hexDigitUpper (b / 16), hexDigitUpper (b % 16)])).flatten

/-- `std::string{ptr, end}` over raw bytes. -/
def stringOfBytes (bs : List Nat) : String := String.mk (bs.map Char.ofNat)

/-- Outcome of the scanner: `found guid name`, a failed scan, or an
out-of-bounds read (undefined behaviour) inside the terminator search. -/
inductive ScanResult where
  | found : String → String → ScanResult
  | failed : ScanResult
  | oob : ScanResult
deriving DecidableEq, Repr

theorem findPatFrom_start_le {buf pat : List Nat} {start r : Nat}
    (h : findPatFrom buf pat start = some r) : start ≤ r := by
  have := List.find?_some h
  simp only [Bool.and_eq_true, decide_eq_true_eq] at this
  exact this.1

theorem findPatFrom_lt_length {buf pat : List Nat} {start r : Nat}
    (h : findPatFrom buf pat start = some r) : r < buf.length := by
  have := List.mem_range.mp (List.mem_of_find?_eq_some h)
  exact this

/-- Outcome of one iteration of the `while(true)` loop of `read_pdb`:
either the loop ends with a result, or — when a candidate's name holds a
non-printable byte — the scan resumes at `src = rsds + 1`. -/
inductive ScanStep where
  | done : ScanResult → ScanStep
  | retry : Nat → ScanStep
deriving DecidableEq, Repr

/-- The body of the `read_pdb` loop, with the search window starting at
byte `start` of the original buffer: find the next `RSDS` marker, check
the minimum size `4+16+4+2`, search the null terminator with
`memchr(rsds + 24, 0, size)` (the C++ passes the distance from the marker,
`size`, as the count), validate printability, and either finish with the
GUID string plus name, finish with a failure, or retry from one byte past
the marker. -/
def scan_step (buf : List Nat) (start : Nat) : ScanStep :=
  match findPatFrom buf rsds_magic start with
  | none => .done .failed
  | some r =>
    if buf.length - r < 4 + 16 + 4 + 2 then .done .failed
    else
      match memchrScan buf (r + 24) (buf.length - r) with
      | .oobRead => .done .oob
      | .noMatch => .done .failed
      | .foundAt ne =>
        match read_pdb_name buf (r + 24) ne with
        | some nm =>
          .done (.found
            (String.mk (bytesToHexUpper (reencode_guid ((buf.drop (r + 4)).take 16))) ++
              Nat.repr (read_le32 (byteAt buf (r + 20)) (byteAt buf (r + 21))
                (byteAt buf (r + 22)) (byteAt buf (r + 23))))
            (stringOfBytes nm))
        | none => .retry (r + 1)

theorem scan_step_retry_bounds {buf : List Nat} {start t : Nat}
    (h : scan_step buf start = .retry t) : start < t ∧ t ≤ buf.length := by
  unfold scan_step at h
  split at h
  · cases h
  · rename_i r hf
    have h1 := findPatFrom_start_le hf
    have h2 := findPatFrom_lt_length hf
    split at h
    · cases h
    · split at h
      · cases h
      · cases h
      · split at h
        · cases h
        · cases h
          omega

/-- The `while(true)` loop of `read_pdb`: iterate `scan_step` until it
finishes. -/
def scan_from (buf : List Nat) (start : Nat) : ScanResult :=
  match h : scan_step buf start with
  | .done res => res
  | .retry t => scan_from buf t
termination_by buf.length + 1 - start
decreasing_by
  have := scan_step_retry_bounds h
  omega

theorem scan_from_done {buf : List Nat} {start : Nat} {res : ScanResult}
    (h : scan_step buf start = .done res) : scan_from buf start = res := by
  rw [scan_from]
  split
  · rename_i h2
    rw [h] at h2
    cases h2
    rfl
  · rename_i h2
    rw [h] at h2
    cases h2

theorem scan_from_retry {buf : List Nat} {start t : Nat}
    (h : scan_step buf start = .retry t) : scan_from buf start = scan_from buf t := by
  rw [scan_from]
  split
  · rename_i h2
    rw [h] at h2
    cases h2
  · rename_i h2
    rw [h] at h2
    cases h2
    rfl

/-- `read_pdb(src, src_size)`: the scan starting at the beginning of the
buffer. -/
def read_pdb (buf : List Nat) : ScanResult := scan_from buf 0

/-! ### DWARF struct resolver (`dwarf.cpp`) -/

/-- The `DW_AT_data_member_location` attribute of a member die, as the
decoder observes it: which form `dwarf_whatform` reports, and the payload
the matching `dwarf_formudata` / `dwarf_formsdata` / `dwarf_loclist_n` call
yields.  `exprLoc` carries the location-description list (each description
a list of `(atom, number)` operations); `exprErr` is a failing
`dwarf_loclist_n` call. -/
inductive LocAttr where
  | data1 : Nat → LocAttr
  | data2 : Nat → LocAttr
  | data4 : Nat → LocAttr
  | data8 : Nat → LocAttr
  | udata : Nat → LocAttr
  | sdata : Int → LocAttr
  | exprLoc : List (List (Nat × Nat)) → LocAttr
  | exprErr : LocAttr
deriving DecidableEq, Repr

/-- `DW_OP_plus_uconst`. -/
def DW_OP_plus_uconst : Nat := 0x23

/-- `get_attr_member_location`: `none` on a missing attribute; the numeric
forms `data1/2/4/8/udata` read unsigned; `sdata` read signed and rejected
when negative; any other form goes through `dwarf_loclist_n` and is
accepted only as a single location description holding the single
operation `DW_OP_plus_uconst`, whose operand is the offset. -/
def get_attr_member_location : Option LocAttr → Option Nat
  | none => none
  | some (.data1 v) => some v
  | some (.data2 v) => some v
  | some (.data4 v) => some v
  | some (.data8 v) => some v
  | some (.udata v) => some v
  | some (.sdata v) => if v < 0 then none else some v.toNat
  | some (.exprLoc descs) =>
    match descs with
    | [ops] =>
      match ops with
      | [op] => if op.1 = DW_OP_plus_uconst then some op.2 else none
      | _ => none
    | _ => none
  | some .exprErr => none

/-- A debug-info entry as the resolver reads it: its `dwarf_diename`
(`none` = `DW_DLV_NO_ENTRY`, the anonymous case; a failing name read skips
the die exactly like a non-matching name and is not modelled separately),
its own children (`read_children`; `none` = failure), the children of its
type die (`dwarf_dietype_offset` + `dwarf_offdie_b` + `read_children`,
`none` = failure at any of the three steps), and its member-location
attribute. -/
inductive Die where
  | mk : Option String → Option (List Die) → Option (List Die) → Option LocAttr → Die

/-- The die's `dwarf_diename`. -/
def Die.dieName : Die → Option String
  | .mk n _ _ _ => n

/-- The die's own children (`read_children` on the die itself). -/
def Die.children : Die → Option (List Die)
  | .mk _ c _ _ => c

/-- The children of the die's type die (anonymous-descent path). -/
def Die.typeChildren : Die → Option (List Die)
  | .mk _ _ tc _ => tc

/-- The die's `DW_AT_data_member_location` attribute. -/
def Die.loc : Die → Option LocAttr
  | .mk _ _ _ l => l

/-- `get_structure(p, name, collection_of_dies, pass_through_anonymous)`:
one in-order pass over the dies; an anonymous die is, at its position in
the order, descended into through its type's children (recursively) when
`passAnon` is set, and a named die is returned on exact match. -/
def get_structure (nm : String) (passAnon : Bool) : List Die → Option Die
  | [] => none
  | Die.mk none _c tc _l :: rest =>
    if passAnon then
      match tc with
      | none => get_structure nm passAnon rest
      | some cs =>
        match get_structure nm true cs with
        | some child => some child
        | none => get_structure nm passAnon rest
    else get_structure nm passAnon rest
  | Die.mk (some n) c tc l :: rest =>
    if n = nm then some (Die.mk (some n) c tc l) else get_structure nm passAnon rest

/-- `Dwarf::struc_offset`: find the structure by exact name (no anonymous
descent at the top level), read its children, find the member with
anonymous descent enabled, and decode its member-location attribute. -/
def struc_offset (structures : List Die) (struc member : String) : Option Nat :=
  match get_structure struc false structures with
  | none => none
  | some sd =>
    match Die.children sd with
    | none => none
    | some cs =>
      match get_structure member true cs with
      | none => none
      | some child => get_attr_member_location (Die.loc child)

/-- The `Dwarf` module object: the `structures` buffer filled by
`Dwarf::setup`. -/
structure DwarfMod where
  structures : List Die

/-- `sym::make_dwarf(span, module, guid)`: the span parameter is unnamed
(`span_t /*span*/`) and never stored. -/
def make_dwarf (_span : Span) (structures : List Die) : DwarfMod :=
  ⟨structures⟩

/-- `Dwarf::span()` returns a value-initialised `span_t{}`. -/
def DwarfMod.span (_d : DwarfMod) : Span := ⟨0, 0⟩

/-! ### Concrete fixtures used by closed theorems and witnesses -/

/-- A span starting at 0. -/
def exSpan : Span := ⟨0, 0x1000⟩

/-- A record whose runtime offset under `exSpan` is 100. -/
def exA : GlobalVar := ⟨"A", 0x80000000 + 100⟩

/-- A record whose runtime offset under `exSpan` is 300. -/
def exB : GlobalVar := ⟨"B", 0x80000000 + 300⟩

/-- A record named like `exA` but at a different address. -/
def exA2 : GlobalVar := ⟨"A", 0x80000000 + 200⟩

/-- A record named `B` sharing `exA`'s runtime address 100. -/
def exB100 : GlobalVar := ⟨"B", 0x80000000 + 100⟩

/-! ### C10: span() of the two backends -/

/-- C10 counterexample: the DWARF resolver is constructed with span
`⟨5, 7⟩` (and a non-empty structures buffer, so `setup` succeeds), yet its
`span()` does not return the supplied span: it returns the
value-initialised `span_t{}`. -/
theorem C10_dwarf_span_not_supplied :
    DwarfMod.span (make_dwarf ⟨5, 7⟩ [Die.mk (some "S") (some []) none none]) ≠ ⟨5, 7⟩ ∧
    DwarfMod.span (make_dwarf ⟨5, 7⟩ [Die.mk (some "S") (some []) none none]) = ⟨0, 0⟩ := by
  constructor
  · intro h
    simp [DwarfMod.span, make_dwarf] at h
  · rfl

/-- C10 amended: the PDB resolver's `span()` returns the caller-supplied
span unchanged; the DWARF resolver never stores the supplied span, and its
`span()` always returns the zero-initialised span. -/
theorem C10_span_amended :
    (∀ (span : Span) (globals : List GlobalVar),
        PdbMod.span (make_pdb span globals) = span) ∧
    (∀ (span : Span) (structures : List Die),
        DwarfMod.span (make_dwarf span structures) = ⟨0, 0⟩) := by
  exact ⟨fun _ _ => rfl, fun _ _ => rfl⟩

/-! ### C1: Pdb::symbol(uint64_t) nearest-below lookup -/

/-- C1: on the index built from span `exSpan` and the single record `exA`
(runtime address 100), the lookup behaves as documented for an exact hit
(offset 0), for an address above an entry (nearest entry below, positive
offset), for the empty index (not-found) — but for an address strictly
below the smallest key the code decrements the `begin()` iterator of the
ordered table, which has no defined result (`iterUB`), instead of
returning some entry as the claim states. -/
theorem C1_addr_lookup_below_min_is_ub :
    symbol_by_addr exSpan (buildSymbolsByOffset exSpan [exA]) 100 = .found "A" 0 ∧
    symbol_by_addr exSpan (buildSymbolsByOffset exSpan [exA]) 150 = .found "A" 50 ∧
    symbol_by_addr exSpan ([] : List (Nat × GlobalVar)) 7 = .notFound ∧
    symbol_by_addr exSpan (buildSymbolsByOffset exSpan [exA]) 50 = .iterUB := by
  refine ⟨?_, ?_, ?_, ?_⟩ <;> decide

/-! ### C9: terminator search reads past the buffer -/

/-- A 27-byte buffer: `RSDS`, 16 identifier bytes, 4 age bytes, then three
printable bytes and no null terminator anywhere at or after offset 24. -/
def oobBuf : List Nat :=
  rsds_magic ++ [1, 2, 3, 4, 5, 6, 7, 8, 9, 10, 11, 12, 13, 14, 15, 16] ++
    [9, 9, 9, 9] ++ [65, 66, 67]

/-- C9: on `oobBuf` the candidate at offset 0 passes the minimum-size check
(27 ≥ 26), and the terminator search — `memchr(rsds + 24, 0, size)` with
`size = 27` counted from the marker, not from the name start — runs past
the end of the buffer: the scan result is the out-of-bounds-read outcome,
refuting the claim that no byte at or beyond `src_size` is ever read. -/
theorem C9_memchr_reads_past_buffer : read_pdb oobBuf = ScanResult.oob :=
  scan_from_done (by decide)

/-! ### C4: malformed-candidate handling of the scanner -/

/-- A 26-byte buffer: `RSDS`, 16 identifier bytes, 4 age bytes, then the
two printable bytes `AB` and no null terminator after the fixed prefix. -/
def untermBuf : List Nat :=
  rsds_magic ++ [1, 2, 3, 4, 5, 6, 7, 8, 9, 10, 11, 12, 13, 14, 15, 16] ++
    [9, 9, 9, 9] ++ [65, 66]

/-- A 7-byte buffer holding the marker but too short for the header. -/
def shortBuf : List Nat := rsds_magic ++ [1, 2, 3]

/-- C4 counterexample: on `untermBuf` the candidate at offset 0 has no null
terminator after the fixed prefix; the claim says the scanner rejects only
this candidate and resumes one byte past the marker, i.e. the scan result
would equal the scan restarted at offset 1 (a plain failure, no later
marker existing); instead the loop ends at the first candidate with the
out-of-bounds terminator search, so the two runs do not agree. -/
theorem C4_unterminated_aborts_not_resumes :
    read_pdb untermBuf = ScanResult.oob ∧
    scan_from untermBuf 1 = ScanResult.failed ∧
    read_pdb untermBuf ≠ scan_from untermBuf 1 := by
  have h0 : read_pdb untermBuf = ScanResult.oob := scan_from_done (by decide)
  have h1 : scan_from untermBuf 1 = ScanResult.failed := scan_from_done (by decide)
  exact ⟨h0, h1, by rw [h0, h1]; simp⟩

/-- C4 amended: a candidate whose name bytes fail the printability test is
rejected and the scan resumes one byte past the marker; but a candidate
whose terminator search finds no null byte ends the whole scan (after the
search has run past the buffer), and a remainder shorter than the
4+16+4+2-byte minimum aborts the whole scan with failure. -/
theorem C4_malformed_handling_amended :
    (∀ (buf : List Nat) (start r ne : Nat),
      findPatFrom buf rsds_magic start = some r →
      ¬ buf.length - r < 4 + 16 + 4 + 2 →
      memchrScan buf (r + 24) (buf.length - r) = .foundAt ne →
      read_pdb_name buf (r + 24) ne = none →
      scan_from buf start = scan_from buf (r + 1)) ∧
    (∀ (buf : List Nat) (start r : Nat),
      findPatFrom buf rsds_magic start = some r →
      ¬ buf.length - r < 4 + 16 + 4 + 2 →
      memchrScan buf (r + 24) (buf.length - r) = .oobRead →
      scan_from buf start = ScanResult.oob) ∧
    (∀ (buf : List Nat) (start r : Nat),
      findPatFrom buf rsds_magic start = some r →
      buf.length - r < 4 + 16 + 4 + 2 →
      scan_from buf start = ScanResult.failed) := by
  refine ⟨?_, ?_, ?_⟩
  · intro buf start r ne hf hsz hm hn
    apply scan_from_retry
    unfold scan_step
    rw [hf]
    simp only [hsz, if_false, hm, hn]
  · intro buf start r hf hsz hm
    apply scan_from_done
    unfold scan_step
    rw [hf]
    simp only [hsz, if_false, hm]
  · intro buf start r hf hsz
    apply scan_from_done
    unfold scan_step
    rw [hf]
    simp only [hsz, if_true]

/-- A buffer holding one malformed `RSDS` candidate (non-printable name
byte `0x07`) immediately followed by a well-formed record. -/
def malThenGoodBuf : List Nat :=
  rsds_magic ++ [0x10, 0x32, 0x54, 0x76, 0x98, 0xBA, 0xDC, 0xFE,
    1, 2, 3, 4, 5, 6, 7, 8] ++ [0x2A, 0, 0, 0] ++ [7] ++
  (rsds_magic ++ [0x10, 0x32, 0x54, 0x76, 0x98, 0xBA, 0xDC, 0xFE,
    1, 2, 3, 4, 5, 6, 7, 8] ++ [0x2A, 0, 0, 0] ++
    [102, 111, 111, 46, 112, 100, 98] ++ [0])

/-- C4 witness: the resume branch of the amended theorem applied at
`malThenGoodBuf` (candidate at 0, terminator found at index 46, a
non-printable name byte), plus the abort branches at `untermBuf` and
`shortBuf`. -/
theorem C4_malformed_handling_amended_witness :
    scan_from malThenGoodBuf 0 = scan_from malThenGoodBuf 1 ∧
    scan_from untermBuf 0 = ScanResult.oob ∧
    scan_from shortBuf 0 = ScanResult.failed :=
  ⟨C4_malformed_handling_amended.1 malThenGoodBuf 0 0 46
      (by decide) (by decide) (by decide) (by decide),
    C4_malformed_handling_amended.2.1 untermBuf 0 0
      (by decide) (by decide) (by decide),
    C4_malformed_handling_amended.2.2 shortBuf 0 0 (by decide) (by decide)⟩


/-! ### C3: anonymous-structure descent order in the DWARF resolver -/

theorem get_structure_nil (nm : String) (pa : Bool) :
    get_structure nm pa [] = none := by
  rw [get_structure.eq_def]

theorem get_structure_cons_named (nm : String) (pa : Bool) (n : String)
    (c tc : Option (List Die)) (l : Option LocAttr) (rest : List Die) :
    get_structure nm pa (Die.mk (some n) c tc l :: rest) =
      if n = nm then some (Die.mk (some n) c tc l)
      else get_structure nm pa rest := by
  rw [get_structure.eq_def]

theorem get_structure_cons_anon_noPass (nm : String)
    (c tc : Option (List Die)) (l : Option LocAttr) (rest : List Die) :
    get_structure nm false (Die.mk none c tc l :: rest) =
      get_structure nm false rest := by
  rw [get_structure.eq_def]; rfl

theorem get_structure_cons_anon_noType (nm : String)
    (c : Option (List Die)) (l : Option LocAttr) (rest : List Die) :
    get_structure nm true (Die.mk none c none l :: rest) =
      get_structure nm true rest := by
  rw [get_structure.eq_def]; rfl

theorem get_structure_cons_anon_descend (nm : String)
    (c : Option (List Die)) (cs : List Die) (l : Option LocAttr) (rest : List Die) :
    get_structure nm true (Die.mk none c (some cs) l :: rest) =
      match get_structure nm true cs with
      | some child => some child
      | none => get_structure nm true rest := by
  rw [get_structure.eq_def]; rfl

theorem get_structure_append (nm : String) (pa : Bool) (xs ys : List Die) :
    get_structure nm pa (xs ++ ys) =
      match get_structure nm pa xs with
      | some d => some d
      | none => get_structure nm pa ys := by
  induction xs with
  | nil => simp [get_structure_nil]
  | cons d rest ih =>
    cases d with
    | mk n c tc l =>
      cases n with
      | none =>
        cases pa with
        | false =>
          rw [List.cons_append, get_structure_cons_anon_noPass,
            get_structure_cons_anon_noPass, ih]
        | true =>
          cases tc with
          | none =>
            rw [List.cons_append, get_structure_cons_anon_noType,
              get_structure_cons_anon_noType, ih]
          | some cs =>
            rw [List.cons_append, get_structure_cons_anon_descend,
              get_structure_cons_anon_descend]
            cases get_structure nm true cs with
            | some child => rfl
            | none => rw [ih]
      | some s =>
        by_cases hs : s = nm
        · rw [List.cons_append, get_structure_cons_named,
            get_structure_cons_named, if_pos hs, if_pos hs]
        · rw [List.cons_append, get_structure_cons_named,
            get_structure_cons_named, if_neg hs, if_neg hs, ih]

theorem get_structure_cons (nm : String) (pa : Bool) (e : Die) (rest : List Die) :
    get_structure nm pa (e :: rest) =
      match get_structure nm pa [e] with
      | some d => some d
      | none => get_structure nm pa rest := by
  simpa using get_structure_append nm pa [e] rest

/-- An anonymous member die whose type resolves to the single child `d`. -/
def anonWrap (d : Die) : Die := Die.mk none none (some [d]) none

/-- A direct member `x` at offset 0. -/
def exDirectX : Die := Die.mk (some "x") none none (some (LocAttr.data1 0))

/-- A member `x` at offset 8 inside an anonymous structure. -/
def exNestedX : Die := Die.mk (some "x") none none (some (LocAttr.data1 8))

/-- A structure `S` whose first child is an anonymous structure holding
`x` at offset 8, and whose second child is the direct member `x` at
offset 0. -/
def exAnonFirst : Die :=
  Die.mk (some "S")
    (some [Die.mk none none (some [exNestedX]) none, exDirectX]) none none

/-- C3 counterexample: the claim says the direct member always takes
precedence over a same-named member inside an anonymous nested structure,
so `struc_offset` on `S.x` would return the direct member's offset 0; the
code instead descends into the anonymous child at its earlier position in
the child order and returns 8. -/
theorem C3_anonymous_before_direct_wins :
    struc_offset [exAnonFirst] "S" "x" = some 8 ∧
    struc_offset [exAnonFirst] "S" "x" ≠ some 0 := by
  have h : struc_offset [exAnonFirst] "S" "x" = some 8 := by
    unfold struc_offset
    rw [show get_structure "S" false [exAnonFirst] = some exAnonFirst from by
      rw [exAnonFirst, get_structure_cons_named, if_pos rfl]]
    dsimp only [exAnonFirst, Die.children]
    rw [get_structure_cons_anon_descend]
    rw [show get_structure "x" true [exNestedX] = some exNestedX from by
      rw [exNestedX, get_structure_cons_named, if_pos rfl]]
    rfl
  refine ⟨h, ?_⟩
  rw [h]
  simp

/-- C3 amended: the member search is a single in-order pass over the
structure's direct children that, at each anonymous child, descends
recursively (to arbitrary depth) into the anonymous structure's members
before moving to the next sibling.  Hence a member inside arbitrarily deep
anonymous nesting resolves as if it were a direct member, and a direct
member is returned exactly when no earlier child — direct or anonymous —
yields a same-named match. -/
theorem C3_anonymous_search_amended :
    (∀ (k : Nat) (d : Die) (nm : String), Die.dieName d = some nm →
      get_structure nm true [anonWrap^[k] d] = some d) ∧
    (∀ (pre post : List Die) (d : Die) (nm : String), Die.dieName d = some nm →
      (∀ e ∈ pre, get_structure nm true [e] = none) →
      get_structure nm true (pre ++ d :: post) = some d) := by
  have hbase : ∀ (d : Die) (nm : String) (rest : List Die), Die.dieName d = some nm →
      get_structure nm true (d :: rest) = some d := by
    intro d nm rest hd
    cases d with
    | mk n c tc l =>
      cases n with
      | none => cases hd
      | some s =>
        cases hd
        rw [get_structure_cons_named, if_pos rfl]
  constructor
  · intro k
    induction k with
    | zero => intro d nm hd; exact hbase d nm [] hd
    | succ k ih =>
      intro d nm hd
      rw [Function.iterate_succ_apply', anonWrap, get_structure_cons_anon_descend,
        ih d nm hd]
  · intro pre
    induction pre with
    | nil => intro post d nm hd _; exact hbase d nm post hd
    | cons e pre' ih =>
      intro post d nm hd hnone
      rw [List.cons_append, get_structure_cons, hnone e (List.mem_cons_self e pre')]
      exact ih post d nm hd (fun x hx => hnone x (List.mem_cons_of_mem e hx))

/-- C3 witness: depth-2 anonymous nesting resolves the member, and a
direct member is returned when the single earlier sibling matches
nothing. -/
theorem C3_anonymous_search_amended_witness :
    get_structure "x" true [anonWrap^[2] exDirectX] = some exDirectX ∧
    get_structure "x" true
      ([Die.mk (some "y") none none none] ++ exDirectX :: []) = some exDirectX :=
  ⟨C3_anonymous_search_amended.1 2 exDirectX "x" rfl,
    C3_anonymous_search_amended.2 [Die.mk (some "y") none none none] [] exDirectX "x" rfl
      (fun e he => by
        rw [List.mem_singleton] at he
        subst he
        rw [get_structure_cons_named, if_neg (by decide), get_structure_nil])⟩

/-! ### C7: substring lookup -/

/-- C7: `symbols_that_contains` returns the not-found outcome exactly when
no symbol's name contains the substring, and a present result is non-empty
and holds exactly the symbols whose name contains the substring, each
mapped to its runtime offset. -/
theorem C7_symbols_that_contains_exact (span : Span)
    (t : List (String × GlobalVar)) (s : String) :
    (symbols_that_contains span t s = none ↔
      ∀ e ∈ t, containsSubstr e.1 s = false) ∧
    (∀ m, symbols_that_contains span t s = some m →
      m ≠ [] ∧ ∀ n a, ((n, a) ∈ m ↔
        ∃ r, (n, r) ∈ t ∧ containsSubstr n s = true ∧ a = get_offset span r)) := by
  have hdef : symbols_that_contains span t s =
      if (t.filterMap (fun e =>
          if containsSubstr e.1 s then some (e.1, get_offset span e.2) else none)).isEmpty
      then none
      else some (t.filterMap (fun e =>
          if containsSubstr e.1 s then some (e.1, get_offset span e.2) else none)) := rfl
  have hmem : ∀ n a, ((n, a) ∈ t.filterMap (fun e =>
      if containsSubstr e.1 s then some (e.1, get_offset span e.2) else none) ↔
      ∃ r, (n, r) ∈ t ∧ containsSubstr n s = true ∧ a = get_offset span r) := by
    intro n a
    rw [List.mem_filterMap]
    constructor
    · rintro ⟨e, he, hfe⟩
      by_cases hc : containsSubstr e.1 s
      · rw [if_pos hc] at hfe
        obtain ⟨h1, h2⟩ := Prod.mk.inj (Option.some.inj hfe)
        refine ⟨e.2, ?_, ?_, h2.symm⟩
        · rw [← h1]; exact he
        · rw [← h1]; exact hc
      · rw [if_neg hc] at hfe; cases hfe
    · rintro ⟨r, hr, hc, ha⟩
      exact ⟨(n, r), hr, by rw [if_pos hc, ha]⟩
  constructor
  · rw [hdef]
    cases hF : t.filterMap (fun e =>
        if containsSubstr e.1 s then some (e.1, get_offset span e.2) else none) with
    | nil =>
      rw [if_pos List.isEmpty_nil]
      refine iff_of_true rfl ?_
      rw [List.filterMap_eq_nil] at hF
      intro e he
      have h0 := hF e he
      cases hcb : containsSubstr e.1 s with
      | false => rfl
      | true => rw [if_pos hcb] at h0; cases h0
    | cons x xs =>
      rw [if_neg (by simp)]
      constructor
      · intro h
        exact absurd h (Option.some_ne_none _)
      · intro hall
        exfalso
        have hx : x ∈ t.filterMap (fun e =>
            if containsSubstr e.1 s then some (e.1, get_offset span e.2) else none) := by
          rw [hF]; exact List.mem_cons_self x xs
        obtain ⟨e, he, hfe⟩ := List.mem_filterMap.mp hx
        rw [hall e he] at hfe
        simp at hfe
  · intro m hm
    rw [hdef] at hm
    cases hF : t.filterMap (fun e =>
        if containsSubstr e.1 s then some (e.1, get_offset span e.2) else none) with
    | nil => rw [hF, if_pos List.isEmpty_nil] at hm; cases hm
    | cons x xs =>
      rw [hF, if_neg (by simp)] at hm
      have hm2 : x :: xs = m := Option.some.inj hm
      subst hm2
      refine ⟨by simp, ?_⟩
      intro n a
      rw [← hF]
      exact hmem n a

/-- C7 witness: the populated index over `exA`, `exB`: a query with zero
matches returns the not-found outcome, and a matching query's result is
characterised. -/
theorem C7_symbols_that_contains_exact_witness :
    symbols_that_contains exSpan (buildSymbols [exA, exB]) "zzz" = none ∧
    (∀ m, symbols_that_contains exSpan (buildSymbols [exA, exB]) "A" = some m →
      m ≠ [] ∧ ∀ n a, ((n, a) ∈ m ↔
        ∃ r, (n, r) ∈ buildSymbols [exA, exB] ∧ containsSubstr n "A" = true ∧
          a = get_offset exSpan r)) :=
  ⟨(C7_symbols_that_contains_exact exSpan (buildSymbols [exA, exB]) "zzz").1.mpr
      (by decide),
    (C7_symbols_that_contains_exact exSpan (buildSymbols [exA, exB]) "A").2⟩

/-! ### C8: member-location decoding -/

/-- A member whose location attribute is a two-operation location
expression (unsupported shape). -/
def exBadMember : Die :=
  Die.mk (some "m") none none (some (LocAttr.exprLoc [[(0x03, 1), (0x23, 2)]]))

/-- A structure `T` holding only `exBadMember`. -/
def exT : Die := Die.mk (some "T") (some [exBadMember]) none none

/-- C8: the decoder accepts every simple numeric form of width 1/2/4/8 and
the unsigned/signed LEB forms, normalising to an unsigned offset; a
negative signed value is rejected; a location expression is accepted
exactly when it is a single description holding the single operation
`DW_OP_plus_uconst`, whose operand is returned; and the offset query's
result is a function of the one resolved member die alone, so an
unsupported shape fails only that query. -/
theorem C8_member_location_decoder :
    (∀ v : Nat,
      get_attr_member_location (some (LocAttr.data1 v)) = some v ∧
      get_attr_member_location (some (LocAttr.data2 v)) = some v ∧
      get_attr_member_location (some (LocAttr.data4 v)) = some v ∧
      get_attr_member_location (some (LocAttr.data8 v)) = some v ∧
      get_attr_member_location (some (LocAttr.udata v)) = some v) ∧
    (∀ v : Int, 0 ≤ v →
      get_attr_member_location (some (LocAttr.sdata v)) = some v.toNat) ∧
    (∀ v : Int, v < 0 →
      get_attr_member_location (some (LocAttr.sdata v)) = none) ∧
    (∀ n : Nat,
      get_attr_member_location
        (some (LocAttr.exprLoc [[(DW_OP_plus_uconst, n)]])) = some n) ∧
    (∀ descs : List (List (Nat × Nat)),
      (∀ n : Nat, descs ≠ [[(DW_OP_plus_uconst, n)]]) →
      get_attr_member_location (some (LocAttr.exprLoc descs)) = none) ∧
    (∀ (structures : List Die) (struc member : String) (sd : Die)
        (cs : List Die) (child : Die),
      get_structure struc false structures = some sd →
      Die.children sd = some cs →
      get_structure member true cs = some child →
      struc_offset structures struc member =
        get_attr_member_location (Die.loc child)) := by
  refine ⟨fun v => ⟨rfl, rfl, rfl, rfl, rfl⟩, ?_, ?_, ?_, ?_, ?_⟩
  · intro v hv
    simp only [get_attr_member_location, if_neg (not_lt.mpr hv)]
  · intro v hv
    simp only [get_attr_member_location, if_pos hv]
  · intro n
    rfl
  · intro descs h
    rcases descs with _ | ⟨ops, _ | ⟨d2, ds⟩⟩
    · rfl
    · rcases ops with _ | ⟨op, _ | ⟨p2, ps⟩⟩
      · rfl
      · by_cases ha : op.1 = DW_OP_plus_uconst
        · exact absurd (by rw [← ha]) (h op.2)
        · simp only [get_attr_member_location, if_neg ha]
      · rfl
    · rfl
  · intro structures struc member sd cs child h1 h2 h3
    unfold struc_offset
    rw [h1]
    dsimp only
    rw [h2]
    dsimp only
    rw [h3]

/-- C8 witness: the decoder applied at concrete attributes, and the
locality part applied at the structure `T` whose only member has an
unsupported two-operation location expression. -/
theorem C8_member_location_decoder_witness :
    get_attr_member_location (some (LocAttr.sdata 3)) = some 3 ∧
    get_attr_member_location (some (LocAttr.sdata (-1))) = none ∧
    get_attr_member_location
      (some (LocAttr.exprLoc [[(0x03, 1), (0x23, 2)]])) = none ∧
    struc_offset [exT] "T" "m" =
      get_attr_member_location (Die.loc exBadMember) :=
  ⟨C8_member_location_decoder.2.1 3 (by decide),
    C8_member_location_decoder.2.2.1 (-1) (by decide),
    C8_member_location_decoder.2.2.2.2.1 [[(0x03, 1), (0x23, 2)]] (by simp),
    C8_member_location_decoder.2.2.2.2.2 [exT] "T" "m" exT [exBadMember] exBadMember
      (by rw [exT, get_structure_cons_named, if_pos rfl])
      rfl
      (by rw [exBadMember, get_structure_cons_named, if_pos rfl])⟩

/-! ### C2: scanner round-trip on a well-formed buffer -/

theorem memchrScan_step (buf : List Nat) (i k : Nat) :
    memchrScan buf i (k + 1) =
      match buf[i]? with
      | none => MemchrRes.oobRead
      | some b => if b = 0 then MemchrRes.foundAt i
          else memchrScan buf (i + 1) k := rfl

theorem memchrScan_found_mid : ∀ (mid pre post : List Nat),
    (∀ b ∈ mid, b ≠ 0) → ∀ n, mid.length < n →
    memchrScan (pre ++ mid ++ 0 :: post) pre.length n =
      .foundAt (pre.length + mid.length) := by
  intro mid
  induction mid with
  | nil =>
    intro pre post _ n hn
    cases n with
    | zero => omega
    | succ k =>
      have heq : (pre ++ ([] : List Nat) ++ 0 :: post) = pre ++ 0 :: post := by simp
      have hget : (pre ++ 0 :: post)[pre.length]? = some 0 := by
        rw [List.getElem?_append_right (le_refl pre.length)]
        simp
      rw [heq, memchrScan_step, hget]
      simp
  | cons b bs ih =>
    intro pre post hmid n hn
    cases n with
    | zero => omega
    | succ k =>
      have hb : b ≠ 0 := hmid b (List.mem_cons_self b bs)
      have heq : pre ++ (b :: bs) ++ 0 :: post = pre ++ b :: (bs ++ 0 :: post) := by
        simp
      have hget : (pre ++ b :: (bs ++ 0 :: post))[pre.length]? = some b := by
        rw [List.getElem?_append_right (le_refl pre.length)]
        simp
      have hk : bs.length < k := by
        simp only [List.length_cons] at hn
        omega
      have h2 := ih (pre ++ [b]) post
        (fun x hx => hmid x (List.mem_cons_of_mem b hx)) k hk
      have heq2 : (pre ++ [b]) ++ bs ++ 0 :: post = pre ++ b :: (bs ++ 0 :: post) := by
        simp
      have heq3 : (pre ++ [b]).length = pre.length + 1 := by simp
      rw [heq2, heq3] at h2
      rw [heq, memchrScan_step, hget]
      dsimp only
      rw [if_neg hb, h2]
      rw [show pre.length + (b :: bs).length = pre.length + 1 + bs.length from by
        simp only [List.length_cons]; omega]

theorem findPatFrom_zero_of_head (buf pat : List Nat)
    (hp : matchesAt buf pat 0 = true) (hlen : 0 < buf.length) :
    findPatFrom buf pat 0 = some 0 := by
  unfold findPatFrom
  obtain ⟨k, hk⟩ : ∃ k, buf.length = k + 1 :=
    ⟨buf.length - 1, by omega⟩
  rw [hk, List.range_succ_eq_map]
  rw [List.find?_cons_of_pos]
  simp [hp]

/-- The hexadecimal uppercase digit characters. -/
def hexCharsUpper : List Char :=
  ['0', '1', '2', '3', '4', '5', '6', '7', '8', '9', 'A', 'B', 'C', 'D', 'E', 'F']

theorem hexDigitUpper_mem (n : Nat) (hn : n < 16) :
    hexDigitUpper n ∈ hexCharsUpper := by
  interval_cases n <;> decide

theorem bytesToHexUpper_length (bs : List Nat) :
    (bytesToHexUpper bs).length = 2 * bs.length := by
  induction bs with
  | nil => rfl
  | cons b rest ih =>
    simp only [bytesToHexUpper, List.map_cons, List.flatten_cons] at ih ⊢
    simp only [List.length_append, List.length_cons, List.length_nil, ih]
    omega

theorem bytesToHexUpper_mem (bs : List Nat) (hbs : ∀ b ∈ bs, b < 256) :
    ∀ c ∈ bytesToHexUpper bs, c ∈ hexCharsUpper := by
  intro c hc
  simp only [bytesToHexUpper, List.mem_flatten, List.mem_map] at hc
  obtain ⟨l, ⟨b, hb, hl⟩, hcl⟩ := hc
  subst hl
  have hb256 := hbs b hb
  simp only [List.mem_cons, List.not_mem_nil, or_false] at hcl
  rcases hcl with h | h
  · rw [h]; exact hexDigitUpper_mem _ (Nat.div_lt_of_lt_mul (by omega))
  · rw [h]; exact hexDigitUpper_mem _ (Nat.mod_lt _ (by omega))

theorem byteAt_lt_256 (g : List Nat) (i : Nat) (hg : ∀ b ∈ g, b < 256) :
    byteAt g i < 256 := by
  unfold byteAt
  cases hx : g[i]? with
  | none => simp [List.getD, hx]
  | some b =>
    have := hg b (List.getElem?_mem hx)
    simp [List.getD, hx, this]

theorem write_be32_bytes_lt (v : Nat) : ∀ b ∈ write_be32 v, b < 256 := by
  intro b hb
  simp only [write_be32, List.mem_cons, List.not_mem_nil, or_false] at hb
  rcases hb with h | h | h | h <;> (rw [h]; exact Nat.mod_lt _ (by omega))

theorem write_be16_bytes_lt (v : Nat) : ∀ b ∈ write_be16 v, b < 256 := by
  intro b hb
  simp only [write_be16, List.mem_cons, List.not_mem_nil, or_false] at hb
  rcases hb with h | h <;> (rw [h]; exact Nat.mod_lt _ (by omega))

theorem reencode_guid_bytes_lt (g : List Nat) (hg : ∀ b ∈ g, b < 256) :
    ∀ b ∈ reencode_guid g, b < 256 := by
  intro b hb
  simp only [reencode_guid, List.append_assoc, List.mem_append] at hb
  rcases hb with h | h | h | h
  · exact write_be32_bytes_lt _ b h
  · exact write_be16_bytes_lt _ b h
  · exact write_be16_bytes_lt _ b h
  · simp only [List.mem_cons, List.not_mem_nil, or_false] at h
    rcases h with h | h | h | h | h | h | h | h <;>
      (rw [h]; exact byteAt_lt_256 g _ hg)

/-- C2: on a buffer that is exactly `"RSDS"`, 16 identifier bytes, a
little-endian 4-byte age, and a printable null-terminated (non-empty) name,
the scanner succeeds; the returned identifier string is the uppercase hex
rendering of the 16 bytes re-encoded from little-endian fields of widths
4/2/2/8 into big-endian 4, big-endian 2, big-endian 2, verbatim 8,
concatenated with the decimal age, and the returned name drops the
terminator.  The hex part is 32 uppercase hexadecimal characters. -/
theorem C2_scanner_roundtrip (id nm : List Nat) (a0 a1 a2 a3 : Nat)
    (hid : id.length = 16) (hid256 : ∀ b ∈ id, b < 256)
    (hnm : ∀ b ∈ nm, isPrintByte b = true) (hne : nm ≠ []) :
    read_pdb (rsds_magic ++ id ++ [a0, a1, a2, a3] ++ nm ++ [0]) =
      ScanResult.found
        (String.mk (bytesToHexUpper (reencode_guid id)) ++
          Nat.repr (read_le32 a0 a1 a2 a3))
        (stringOfBytes nm) ∧
    (bytesToHexUpper (reencode_guid id)).length = 32 ∧
    (∀ c ∈ bytesToHexUpper (reencode_guid id), c ∈ hexCharsUpper) := by
  have hnmpos : 0 < nm.length := List.length_pos.mpr hne
  refine ⟨?_, ?_, bytesToHexUpper_mem _ (reencode_guid_bytes_lt id hid256)⟩
  case refine_2 =>
    rw [bytesToHexUpper_length]
    rw [show (reencode_guid id).length = 16 from by
      simp [reencode_guid, write_be32, write_be16]]
  set buf := rsds_magic ++ id ++ [a0, a1, a2, a3] ++ nm ++ [0] with hbuf
  have hlen : buf.length = 25 + nm.length := by
    rw [hbuf]
    simp [rsds_magic, hid]
    omega
  have hpre : (rsds_magic ++ id ++ [a0, a1, a2, a3]).length = 24 := by
    simp [rsds_magic, hid]
  have hP : (rsds_magic ++ id).length = 20 := by
    simp [rsds_magic, hid]
  have hbuf2 : buf = (rsds_magic ++ id) ++ ([a0, a1, a2, a3] ++ (nm ++ [0])) := by
    simp [hbuf]
  have hs1 : (rsds_magic ++ id ++ [a0, a1, a2, a3]) ++ nm ++ 0 :: [] = buf := by
    simp [hbuf]
  have hs2 : (rsds_magic ++ id ++ [a0, a1, a2, a3]) ++ (nm ++ 0 :: []) = buf := by
    simp [hbuf]
  have hmatch : matchesAt buf rsds_magic 0 = true := by
    unfold matchesAt
    rw [hbuf, List.drop_zero]
    rw [show (rsds_magic ++ id ++ [a0, a1, a2, a3] ++ nm ++ [0]) =
        rsds_magic ++ (id ++ ([a0, a1, a2, a3] ++ (nm ++ [0]))) from by simp]
    rw [List.take_left]
    simp
  have hfind : findPatFrom buf rsds_magic 0 = some 0 :=
    findPatFrom_zero_of_head buf rsds_magic hmatch (by omega)
  have hmemchr : memchrScan buf 24 buf.length = .foundAt (24 + nm.length) := by
    have h := memchrScan_found_mid nm (rsds_magic ++ id ++ [a0, a1, a2, a3]) []
      (fun b hb => by
        have := hnm b hb
        simp only [isPrintByte, Bool.and_eq_true, decide_eq_true_eq] at this
        omega)
      buf.length (by omega)
    rw [hpre, hs1] at h
    exact h
  have hdropN : buf.drop 24 = nm ++ 0 :: [] := by
    rw [← hs2, show (24 : Nat) = (rsds_magic ++ id ++ [a0, a1, a2, a3]).length from
      hpre.symm, List.drop_left]
  have hname : read_pdb_name buf 24 (24 + nm.length) = some nm := by
    have htake : List.take nm.length (nm ++ [0]) = nm := by simp
    unfold read_pdb_name
    rw [hdropN]
    simp only [Nat.add_sub_cancel_left]
    rw [htake, if_pos (List.all_eq_true.mpr hnm)]
  have hguid : (buf.drop 4).take 16 = id := by
    rw [show buf = rsds_magic ++ (id ++ ([a0, a1, a2, a3] ++ (nm ++ [0]))) from by
      rw [hbuf]; simp]
    rw [show (4 : Nat) = rsds_magic.length from rfl, List.drop_left]
    rw [show (16 : Nat) = id.length from hid.symm, List.take_left]
  have h20 : byteAt buf 20 = a0 := by
    rw [hbuf2]
    unfold byteAt
    rw [List.getD_eq_getElem?_getD, List.getElem?_append_right (by rw [hP])]
    simp [hP]
  have h21 : byteAt buf 21 = a1 := by
    rw [hbuf2]
    unfold byteAt
    rw [List.getD_eq_getElem?_getD, List.getElem?_append_right (by rw [hP]; omega)]
    simp [hP]
  have h22 : byteAt buf 22 = a2 := by
    rw [hbuf2]
    unfold byteAt
    rw [List.getD_eq_getElem?_getD, List.getElem?_append_right (by rw [hP]; omega)]
    simp [hP]
  have h23 : byteAt buf 23 = a3 := by
    rw [hbuf2]
    unfold byteAt
    rw [List.getD_eq_getElem?_getD, List.getElem?_append_right (by rw [hP]; omega)]
    simp [hP]
  have hstep : scan_step buf 0 = .done (.found
      (String.mk (bytesToHexUpper (reencode_guid id)) ++
        Nat.repr (read_le32 a0 a1 a2 a3))
      (stringOfBytes nm)) := by
    unfold scan_step
    rw [hfind]
    dsimp only
    simp only [Nat.zero_add, Nat.sub_zero]
    rw [if_neg (by omega)]
    rw [hmemchr]
    dsimp only
    rw [hname]
    dsimp only
    rw [hguid, h20, h21, h22, h23]
  unfold read_pdb
  exact scan_from_done hstep

/-- C2 witness: the round-trip theorem at the identifier bytes
`10 32 54 76 98 BA DC FE 01..08`, age 42 and name `foo.pdb`. -/
theorem C2_scanner_roundtrip_witness :
    read_pdb (rsds_magic ++
        [0x10, 0x32, 0x54, 0x76, 0x98, 0xBA, 0xDC, 0xFE, 1, 2, 3, 4, 5, 6, 7, 8] ++
        [42, 0, 0, 0] ++ [102, 111, 111, 46, 112, 100, 98] ++ [0]) =
      ScanResult.found
        (String.mk (bytesToHexUpper (reencode_guid
            [0x10, 0x32, 0x54, 0x76, 0x98, 0xBA, 0xDC, 0xFE, 1, 2, 3, 4, 5, 6, 7, 8])) ++
          Nat.repr (read_le32 42 0 0 0))
        (stringOfBytes [102, 111, 111, 46, 112, 100, 98]) ∧
    (bytesToHexUpper (reencode_guid
        [0x10, 0x32, 0x54, 0x76, 0x98, 0xBA, 0xDC, 0xFE, 1, 2, 3, 4, 5, 6, 7, 8])).length = 32 ∧
    (∀ c ∈ bytesToHexUpper (reencode_guid
        [0x10, 0x32, 0x54, 0x76, 0x98, 0xBA, 0xDC, 0xFE, 1, 2, 3, 4, 5, 6, 7, 8]),
      c ∈ hexCharsUpper) :=
  C2_scanner_roundtrip
    [0x10, 0x32, 0x54, 0x76, 0x98, 0xBA, 0xDC, 0xFE, 1, 2, 3, 4, 5, 6, 7, 8]
    [102, 111, 111, 46, 112, 100, 98] 42 0 0 0
    (by decide) (by decide) (by decide) (by decide)

/-! ### C5 and C6: table construction and cross-table agreement -/

theorem find?_append_split {α : Type} (l1 l2 : List α) (p : α → Bool) :
    (l1 ++ l2).find? p =
      match l1.find? p with
      | some x => some x
      | none => l2.find? p := by
  induction l1 with
  | nil => simp
  | cons a l ih =>
    by_cases h : p a
    · rw [List.cons_append, List.find?_cons_of_pos _ h, List.find?_cons_of_pos _ h]
    · rw [List.cons_append, List.find?_cons_of_neg _ h, List.find?_cons_of_neg _ h, ih]

theorem find?_emplaceName (t : List (String × GlobalVar)) (v : GlobalVar) (s : String) :
    (emplaceName t v).find? (fun e => e.1 == s) =
      match t.find? (fun e => e.1 == s) with
      | some e => some e
      | none => if v.name == s then some (v.name, v) else none := by
  unfold emplaceName
  by_cases hany : t.any (fun e => e.1 == v.name)
  · rw [if_pos hany]
    cases hf : t.find? (fun e => e.1 == s) with
    | some e => rfl
    | none =>
      by_cases hv : v.name = s
      · exfalso
        obtain ⟨e, he, hee⟩ := List.any_eq_true.mp hany
        have he1 : e.1 = v.name := by simpa using hee
        have hnone := List.find?_eq_none.mp hf e he
        apply hnone
        simp [he1, hv]
      · rw [if_neg (by simpa using hv)]
  · rw [if_neg hany]
    rw [find?_append_split]
    cases hf : t.find? (fun e => e.1 == s) with
    | some e => rfl
    | none =>
      by_cases hv : v.name = s
      · rw [List.find?_cons_of_pos _ (by simpa using hv), if_pos (by simpa using hv)]
      · rw [List.find?_cons_of_neg _ (by simpa using hv), if_neg (by simpa using hv)]
        rfl

theorem findName_foldl (g : List GlobalVar) : ∀ (t : List (String × GlobalVar)) (s : String),
    (List.foldl emplaceName t g).find? (fun e => e.1 == s) =
      match t.find? (fun e => e.1 == s) with
      | some e => some e
      | none => (g.find? (fun v => v.name == s)).map (fun v => (v.name, v)) := by
  induction g with
  | nil =>
    intro t s
    rw [List.foldl_nil]
    cases t.find? (fun e => e.1 == s) with
    | some e => rfl
    | none => rfl
  | cons v g' ih =>
    intro t s
    rw [List.foldl_cons, ih (emplaceName t v) s, find?_emplaceName]
    cases hf : t.find? (fun e => e.1 == s) with
    | some e => rfl
    | none =>
      by_cases hv : v.name = s
      · rw [if_pos (by simpa using hv), List.find?_cons_of_pos _ (by simpa using hv)]
        rfl
      · rw [if_neg (by simpa using hv), List.find?_cons_of_neg _ (by simpa using hv)]

/-- C5 amended, part 1 statement helper: name lookup through the built
name table resolves to the first record of the backend iteration carrying
that name. -/
theorem buildSymbols_find (g : List GlobalVar) (s : String) :
    (buildSymbols g).find? (fun e => e.1 == s) =
      (g.find? (fun v => v.name == s)).map (fun v => (v.name, v)) := by
  unfold buildSymbols
  rw [findName_foldl g [] s]
  rfl

theorem mem_insertByOffset_sub {t : List (Nat × GlobalVar)} {k : Nat}
    {v : GlobalVar} {e : Nat × GlobalVar} (h : e ∈ insertByOffset t k v) :
    e ∈ t ∨ e = (k, v) := by
  induction t with
  | nil =>
    unfold insertByOffset at h
    rw [List.mem_singleton] at h
    exact Or.inr h
  | cons hd rest ih =>
    unfold insertByOffset at h
    by_cases h1 : k < hd.1
    · rw [if_pos h1] at h
      rcases List.mem_cons.mp h with he | hmem
      · exact Or.inr he
      · exact Or.inl hmem
    · rw [if_neg h1] at h
      by_cases h2 : k = hd.1
      · rw [if_pos h2] at h
        exact Or.inl h
      · rw [if_neg h2] at h
        rcases List.mem_cons.mp h with he | hmem
        · exact Or.inl (he ▸ List.mem_cons_self hd rest)
        · rcases ih hmem with h3 | h3
          · exact Or.inl (List.mem_cons_of_mem hd h3)
          · exact Or.inr h3

theorem insertByOffset_pairwise {t : List (Nat × GlobalVar)}
    (hs : List.Pairwise (fun p q => p.1 < q.1) t) (k : Nat) (v : GlobalVar) :
    List.Pairwise (fun p q => p.1 < q.1) (insertByOffset t k v) := by
  induction t with
  | nil =>
    unfold insertByOffset
    exact List.pairwise_singleton _ _
  | cons hd rest ih =>
    obtain ⟨hhd, hrest⟩ := List.pairwise_cons.mp hs
    unfold insertByOffset
    by_cases h1 : k < hd.1
    · rw [if_pos h1]
      refine List.pairwise_cons.mpr ⟨?_, hs⟩
      intro q hq
      rcases List.mem_cons.mp hq with he | hmem
      · rw [he]; exact h1
      · exact lt_trans h1 (hhd q hmem)
    · rw [if_neg h1]
      by_cases h2 : k = hd.1
      · rw [if_pos h2]; exact hs
      · rw [if_neg h2]
        refine List.pairwise_cons.mpr ⟨?_, ih hrest⟩
        intro q hq
        rcases mem_insertByOffset_sub hq with h3 | h3
        · exact hhd q h3
        · rw [h3]; omega

theorem mem_insertByOffset {t : List (Nat × GlobalVar)}
    (hs : List.Pairwise (fun p q => p.1 < q.1) t) (k : Nat) (v : GlobalVar)
    (e : Nat × GlobalVar) :
    e ∈ insertByOffset t k v ↔ e ∈ t ∨ (e = (k, v) ∧ k ∉ t.map Prod.fst) := by
  induction t with
  | nil =>
    unfold insertByOffset
    simp
  | cons hd rest ih =>
    obtain ⟨hhd, hrest⟩ := List.pairwise_cons.mp hs
    unfold insertByOffset
    by_cases h1 : k < hd.1
    · rw [if_pos h1]
      have hk : k ∉ (hd :: rest).map Prod.fst := by
        simp only [List.map_cons, List.mem_cons, List.mem_map]
        push_neg
        refine ⟨by omega, ?_⟩
        intro q hq
        have := hhd q hq
        omega
      constructor
      · intro h
        rcases List.mem_cons.mp h with he | hmem
        · exact Or.inr ⟨he, hk⟩
        · exact Or.inl hmem
      · intro h
        rcases h with hmem | ⟨he, _⟩
        · exact List.mem_cons_of_mem _ hmem
        · rw [he]; exact List.mem_cons_self _ _
    · rw [if_neg h1]
      by_cases h2 : k = hd.1
      · rw [if_pos h2]
        have hk : k ∈ (hd :: rest).map Prod.fst := by
          simp only [List.map_cons, List.mem_cons]
          exact Or.inl h2
        constructor
        · intro h; exact Or.inl h
        · intro h
          rcases h with hmem | ⟨_, hnk⟩
          · exact hmem
          · exact absurd hk hnk
      · rw [if_neg h2]
        rw [List.mem_cons, ih hrest]
        simp only [List.map_cons, List.mem_cons]
        constructor
        · rintro (he | hmem | ⟨he, hnk⟩)
          · exact Or.inl (Or.inl he)
          · exact Or.inl (Or.inr hmem)
          · refine Or.inr ⟨he, ?_⟩
            push_neg
            exact ⟨fun hkk => h2 hkk, fun hkk => hnk hkk⟩
        · rintro ((he | hmem) | ⟨he, hnk⟩)
          · exact Or.inl he
          · exact Or.inr (Or.inl hmem)
          · push_neg at hnk
            exact Or.inr (Or.inr ⟨he, hnk.2⟩)

theorem keys_insertByOffset {t : List (Nat × GlobalVar)}
    (hs : List.Pairwise (fun p q => p.1 < q.1) t) (k : Nat) (v : GlobalVar)
    (k' : Nat) :
    k' ∈ (insertByOffset t k v).map Prod.fst ↔ k' ∈ t.map Prod.fst ∨ k' = k := by
  constructor
  · intro h
    obtain ⟨e, he, hek⟩ := List.mem_map.mp h
    rcases mem_insertByOffset_sub he with h1 | h1
    · exact Or.inl (hek ▸ List.mem_map_of_mem Prod.fst h1)
    · rw [h1] at hek
      exact Or.inr hek.symm
  · intro h
    rcases h with h | h
    · obtain ⟨e, he, hek⟩ := List.mem_map.mp h
      refine hek ▸ List.mem_map_of_mem Prod.fst ?_
      rw [mem_insertByOffset hs k v e]
      exact Or.inl he
    · by_cases hk : k ∈ t.map Prod.fst
      · obtain ⟨e, he, hek⟩ := List.mem_map.mp hk
        refine List.mem_map.mpr ⟨e, ?_, by rw [hek, h]⟩
        rw [mem_insertByOffset hs k v e]
        exact Or.inl he
      · refine List.mem_map.mpr ⟨(k, v), ?_, h.symm⟩
        rw [mem_insertByOffset hs k v (k, v)]
        exact Or.inr ⟨rfl, hk⟩

theorem foldl_insertByOffset_pairwise (span : Span) :
    ∀ (g : List GlobalVar) (t : List (Nat × GlobalVar)),
    List.Pairwise (fun p q => p.1 < q.1) t →
    List.Pairwise (fun p q => p.1 < q.1)
      (g.foldl (fun t v => insertByOffset t (get_offset span v) v) t) := by
  intro g
  induction g with
  | nil => intro t hs; exact hs
  | cons v g' ih =>
    intro t hs
    rw [List.foldl_cons]
    exact ih _ (insertByOffset_pairwise hs _ _)

theorem buildSymbolsByOffset_pairwise (span : Span) (g : List GlobalVar) :
    List.Pairwise (fun p q => p.1 < q.1) (buildSymbolsByOffset span g) :=
  foldl_insertByOffset_pairwise span g [] (List.Pairwise.nil)

theorem mem_foldl_insertByOffset (span : Span) :
    ∀ (g : List GlobalVar) (t : List (Nat × GlobalVar)),
    List.Pairwise (fun p q => p.1 < q.1) t → ∀ (k : Nat) (x : GlobalVar),
    ((k, x) ∈ g.foldl (fun t v => insertByOffset t (get_offset span v) v) t ↔
      (k, x) ∈ t ∨ (k ∉ t.map Prod.fst ∧
        g.find? (fun v => get_offset span v == k) = some x)) := by
  intro g
  induction g with
  | nil =>
    intro t hs k x
    simp
  | cons v g' ih =>
    intro t hs k x
    rw [List.foldl_cons,
      ih (insertByOffset t (get_offset span v) v) (insertByOffset_pairwise hs _ _) k x,
      mem_insertByOffset hs _ _ (k, x)]
    by_cases hv : get_offset span v = k
    · rw [List.find?_cons_of_pos _ (by simpa using hv)]
      have hkeys : k ∈ (insertByOffset t (get_offset span v) v).map Prod.fst := by
        rw [keys_insertByOffset hs]
        exact Or.inr hv.symm
      constructor
      · rintro ((hmem | ⟨he, hnk⟩) | ⟨hnk, _⟩)
        · exact Or.inl hmem
        · obtain ⟨h1, h2⟩ := Prod.mk.inj he
          refine Or.inr ⟨hv ▸ hnk, by rw [h2]⟩
        · exact absurd hkeys hnk
      · rintro (hmem | ⟨hnk, hx⟩)
        · exact Or.inl (Or.inl hmem)
        · refine Or.inl (Or.inr ⟨?_, hv ▸ hnk⟩)
          have : x = v := Option.some.inj hx.symm
          rw [this, hv]
      
    · rw [List.find?_cons_of_neg _ (by simpa using hv)]
      have hkeys : k ∈ (insertByOffset t (get_offset span v) v).map Prod.fst ↔
          k ∈ t.map Prod.fst := by
        rw [keys_insertByOffset hs]
        constructor
        · rintro (h | h)
          · exact h
          · exact absurd h.symm hv
        · exact Or.inl
      constructor
      · rintro ((hmem | ⟨he, _⟩) | ⟨hnk, hfind⟩)
        · exact Or.inl hmem
        · exact absurd (congrArg Prod.fst he).symm hv
        · exact Or.inr ⟨fun hk => hnk (hkeys.mpr hk), hfind⟩
      · rintro (hmem | ⟨hnk, hfind⟩)
        · exact Or.inl (Or.inl hmem)
        · exact Or.inr ⟨fun hk => hnk (hkeys.mp hk), hfind⟩

/-- C5 amended, part 2 statement helper: an entry sits in the built
address table exactly when it is the first record of the backend iteration
whose runtime offset is that key. -/
theorem buildSymbolsByOffset_mem (span : Span) (g : List GlobalVar)
    (k : Nat) (x : GlobalVar) :
    (k, x) ∈ buildSymbolsByOffset span g ↔
      g.find? (fun v => get_offset span v == k) = some x := by
  unfold buildSymbolsByOffset
  rw [mem_foldl_insertByOffset span g [] List.Pairwise.nil k x]
  simp

theorem find?_offset_of_mem_nodup (span : Span) :
    ∀ (g : List GlobalVar), (g.map (get_offset span)).Nodup →
    ∀ (x : GlobalVar), x ∈ g → ∀ (k : Nat), get_offset span x = k →
    g.find? (fun v => get_offset span v == k) = some x := by
  intro g
  induction g with
  | nil => intro _ x hx; cases hx
  | cons y g' ih =>
    intro hnd x hx k hk
    rw [List.map_cons, List.nodup_cons] at hnd
    rcases List.mem_cons.mp hx with he | hmem
    · subst he
      exact List.find?_cons_of_pos _ (by simpa using hk)
    · by_cases hy : get_offset span y = k
      · exfalso
        apply hnd.1
        rw [hy, ← hk]
        exact List.mem_map_of_mem (get_offset span) hmem
      · rw [List.find?_cons_of_neg _ (by simpa using hy)]
        exact ih hnd.2 x hmem k hk

theorem foldl_emplaceName_of_disjoint :
    ∀ (g : List GlobalVar) (t : List (String × GlobalVar)),
    (∀ v ∈ g, ∀ e ∈ t, e.1 ≠ v.name) → (g.map GlobalVar.name).Nodup →
    List.foldl emplaceName t g = t ++ g.map (fun v => (v.name, v)) := by
  intro g
  induction g with
  | nil => intro t _ _; simp
  | cons v g' ih =>
    intro t hdisj hnd
    rw [List.map_cons, List.nodup_cons] at hnd
    rw [List.foldl_cons]
    have hany : ¬ t.any (fun e => e.1 == v.name) := by
      rw [List.any_eq_true]
      push_neg
      intro e he
      have := hdisj v (List.mem_cons_self v g') e he
      simpa using this
    have hemp : emplaceName t v = t ++ [(v.name, v)] := by
      unfold emplaceName
      rw [if_neg hany]
    rw [hemp, ih (t ++ [(v.name, v)]) ?_ hnd.2]
    · simp
    · intro w hw e he
      rcases List.mem_append.mp he with h1 | h1
      · exact hdisj w (List.mem_cons_of_mem v hw) e h1
      · rw [List.mem_singleton] at h1
        rw [h1]
        intro hc
        apply hnd.1
        have hc2 : v.name = w.name := hc
        rw [hc2]
        exact List.mem_map_of_mem GlobalVar.name hw

/-- C5 amended, part 3 statement helper: with pairwise-distinct names the
name table is exactly the records in iteration order. -/
theorem buildSymbols_of_nodup (g : List GlobalVar)
    (hnd : (g.map GlobalVar.name).Nodup) :
    buildSymbols g = g.map (fun v => (v.name, v)) := by
  unfold buildSymbols
  rw [foldl_emplaceName_of_disjoint g [] (by simp) hnd]
  simp

theorem sub64_self (a : Nat) : sub64 a a = 0 := by
  unfold sub64
  have h : a % U64 < U64 := Nat.mod_lt _ (by unfold U64; positivity)
  rw [show a % U64 + (U64 - a % U64) = U64 from by omega]
  exact Nat.mod_self U64

theorem symbol_addr_walk_cons (span : Span) (addr : Nat)
    (prev : Option (Nat × GlobalVar)) (e : Nat × GlobalVar)
    (rest : List (Nat × GlobalVar)) :
    symbol_addr_walk span addr prev (e :: rest) =
      if e.1 < addr then symbol_addr_walk span addr (some e) rest
      else if e.1 = addr then .found e.2.name (sub64 addr (get_offset span e.2))
      else
        match prev with
        | none => .iterUB
        | some p => .found p.2.name (sub64 addr (get_offset span p.2)) := by
  cases prev with
  | none => rfl
  | some p => rfl

theorem symbol_addr_walk_mem (span : Span) (a : Nat) :
    ∀ (tbl : List (Nat × GlobalVar)),
    List.Pairwise (fun p q => p.1 < q.1) tbl →
    ∀ (v : GlobalVar), (a, v) ∈ tbl →
    ∀ (prev : Option (Nat × GlobalVar)),
    symbol_addr_walk span a prev tbl =
      .found v.name (sub64 a (get_offset span v)) := by
  intro tbl
  induction tbl with
  | nil => intro _ v hv; cases hv
  | cons e rest ih =>
    intro hs v hv prev
    obtain ⟨he, hrest⟩ := List.pairwise_cons.mp hs
    rcases List.mem_cons.mp hv with heq | hmem
    · rw [symbol_addr_walk_cons, ← heq]
      rw [if_neg (lt_irrefl a), if_pos rfl]
    · have hlt : e.1 < a := he (a, v) hmem
      rw [symbol_addr_walk_cons, if_pos hlt]
      exact ih hrest v hmem (some e)

/-! ### C5: duplicate handling and cross-table invariant -/

/-- C5 counterexample: `emplace` keeps the first record, so with two
records named `A` at runtime offsets 100 and 200 the name table answers
with the earlier offset 100 (the claim's last-write-wins predicts 200);
with records `A` then `B` both at runtime offset 100, the address table
keeps the record `A` (the claim's overwrite predicts `B`). -/
theorem C5_tables_keep_first_record :
    symbol_by_name exSpan (buildSymbols [exA, exA2]) "A" = some 100 ∧
    symbol_by_name exSpan (buildSymbols [exA, exA2]) "A" ≠ some 200 ∧
    symbol_by_addr exSpan (buildSymbolsByOffset exSpan [exA, exB100]) 100 =
      .found "A" 0 ∧
    symbol_by_addr exSpan (buildSymbolsByOffset exSpan [exA, exB100]) 100 ≠
      .found "B" 0 := by
  refine ⟨?_, ?_, ?_, ?_⟩ <;> decide

/-- C5 amended: both `emplace` calls keep the first-inserted record on a
duplicate key, so the name table maps a duplicated name to the earliest
record carrying it and the address table anchors a duplicated runtime
address to the earliest record computing it; and when the collection's
names and runtime offsets are pairwise distinct, the two tables hold
exactly the same records, each name-table entry appearing in the address
table at its record's runtime offset and conversely. -/
theorem C5_tables_amended :
    (∀ (g : List GlobalVar) (s : String),
      (buildSymbols g).find? (fun e => e.1 == s) =
        (g.find? (fun v => v.name == s)).map (fun v => (v.name, v))) ∧
    (∀ (span : Span) (g : List GlobalVar) (k : Nat) (x : GlobalVar),
      ((k, x) ∈ buildSymbolsByOffset span g ↔
        g.find? (fun v => get_offset span v == k) = some x)) ∧
    (∀ (span : Span) (g : List GlobalVar),
      (g.map GlobalVar.name).Nodup → (g.map (get_offset span)).Nodup →
      ∀ (n : String) (x : GlobalVar),
        ((n, x) ∈ buildSymbols g ↔
          (n = x.name ∧ (get_offset span x, x) ∈ buildSymbolsByOffset span g))) := by
  refine ⟨buildSymbols_find, fun span g k x => buildSymbolsByOffset_mem span g k x, ?_⟩
  intro span g hnames hoffs n x
  rw [buildSymbols_of_nodup g hnames]
  constructor
  · intro h
    obtain ⟨v, hv, hve⟩ := List.mem_map.mp h
    obtain ⟨h1, h2⟩ := Prod.mk.inj hve
    subst h2
    refine ⟨h1.symm, ?_⟩
    rw [buildSymbolsByOffset_mem span g]
    exact find?_offset_of_mem_nodup span g hoffs v hv _ rfl
  · rintro ⟨hn, hmem⟩
    rw [buildSymbolsByOffset_mem span g] at hmem
    have hx : x ∈ g := List.mem_of_find?_eq_some hmem
    refine List.mem_map.mpr ⟨x, hx, ?_⟩
    rw [hn]

/-- C5 witness: the amended theorem applied at the two-record collection
`exA`, `exB` (distinct names, distinct offsets 100 and 300). -/
theorem C5_tables_amended_witness :
    (buildSymbols [exA, exA2]).find? (fun e => e.1 == "A") =
      (([exA, exA2]).find? (fun v => v.name == "A")).map (fun v => (v.name, v)) ∧
    ((100, exA) ∈ buildSymbolsByOffset exSpan [exA, exB100] ↔
      ([exA, exB100]).find? (fun v => get_offset exSpan v == 100) = some exA) ∧
    (("A", exA) ∈ buildSymbols [exA, exB] ↔
      ("A" = exA.name ∧ (get_offset exSpan exA, exA) ∈
        buildSymbolsByOffset exSpan [exA, exB])) :=
  ⟨C5_tables_amended.1 [exA, exA2] "A",
    C5_tables_amended.2.1 exSpan [exA, exB100] 100 exA,
    C5_tables_amended.2.2 exSpan [exA, exB] (by decide) (by decide) "A" exA⟩

/-! ### C6: agreement of name lookup and address lookup -/

/-- C6 counterexample: with records `A` then `B` sharing runtime address
100, name lookup resolves `B` to 100, but the address lookup at 100
returns `("A", 0)` — the record that anchored the address first — not
`("B", 0)` as the claim states. -/
theorem C6_duplicate_address_disagrees :
    symbol_by_name exSpan (buildSymbols [exA, exB100]) "B" = some 100 ∧
    symbol_by_addr exSpan (buildSymbolsByOffset exSpan [exA, exB100]) 100 =
      .found "A" 0 ∧
    symbol_by_addr exSpan (buildSymbolsByOffset exSpan [exA, exB100]) 100 ≠
      .found "B" 0 := by
  refine ⟨?_, ?_, ?_⟩ <;> decide

/-- C6 amended: when the records' runtime offsets are pairwise distinct,
every symbol the name lookup resolves to runtime address `a` is returned
by the address lookup at `a` as that symbol's name with offset 0. -/
theorem C6_name_addr_agree_amended (span : Span) (g : List GlobalVar)
    (s : String) (a : Nat)
    (hnd : (g.map (get_offset span)).Nodup)
    (h : symbol_by_name span (buildSymbols g) s = some a) :
    symbol_by_addr span (buildSymbolsByOffset span g) a = .found s 0 := by
  unfold symbol_by_name at h
  rw [buildSymbols_find g s, Option.map_eq_some'] at h
  obtain ⟨e, he, hoff⟩ := h
  rw [Option.map_eq_some'] at he
  obtain ⟨v, hv, hmk⟩ := he
  subst hmk
  have ha : get_offset span v = a := hoff
  have hvs : v.name = s := by simpa using List.find?_some hv
  have hvg : v ∈ g := List.mem_of_find?_eq_some hv
  have hmem : (a, v) ∈ buildSymbolsByOffset span g := by
    rw [buildSymbolsByOffset_mem span g]
    exact find?_offset_of_mem_nodup span g hnd v hvg a ha
  unfold symbol_by_addr
  rw [symbol_addr_walk_mem span a (buildSymbolsByOffset span g)
    (buildSymbolsByOffset_pairwise span g) v hmem none]
  rw [hvs, ha, sub64_self]

/-- C6 witness: the amended agreement at the collection `exA`, `exB`
(offsets 100 and 300): name lookup of `A` gives 100 and the address lookup
at 100 answers `("A", 0)`. -/
theorem C6_name_addr_agree_amended_witness :
    symbol_by_addr exSpan (buildSymbolsByOffset exSpan [exA, exB]) 100 =
      .found "A" 0 :=
  C6_name_addr_agree_amended exSpan [exA, exB] "A" 100 (by decide) (by decide)
